import Mathlib

/-
Verification of the blog backend (Express + Mongoose service in server.js and
its two variants). Strings are modelled as lists of characters, the document
store as a list of posts, and each route handler as a pure function on that
store. The canonical behavior follows the variant set assumed by the design
notes: slug optional at the schema level (server.js line 169), itemized
validation messages (variant part_000 lines 39 to 45), and search-filtered
count (server.js lines 228 to 244). Mongoose document middleware semantics
are modelled as they apply to this code: validation runs before the pre-save
hook, the hook runs on save only (never on findByIdAndUpdate), and on a new
document every set path counts as modified. The external store contributes
two behaviors, modelled explicitly where a claim depends on them: the unique
index on slug and id rejects duplicate inserts, and the identifier cast
rejects strings that are not 24 hexadecimal characters.
-/

/-- Character class a-z0-9 of the regex in the slug pipeline (server.js lines 183 to 186). -/
def isLowerAlnum (c : Char) : Bool :=
  (97 ≤ c.toNat && c.toNat ≤ 122) || (48 ≤ c.toNat && c.toNat ≤ 57)

/-- First replace of the slug pipeline, pointwise part: every character outside a-z0-9 becomes a hyphen. -/
def dashify (l : List Char) : List Char :=
  l.map (fun c => if isLowerAlnum c then c else '-')

/-- Run collapsing: together with dashify this models the JS replace of every maximal run matching [^a-z0-9]+ by a single hyphen. -/
def squeezeDashes : List Char → List Char
  | [] => []
  | [c] => [c]
  | c :: d :: rest =>
    if c = '-' && d = '-' then squeezeDashes (d :: rest)
    else c :: squeezeDashes (d :: rest)

/-- Removes one leading hyphen, the start-anchored half of the JS replace of (^-|-$)+ by the empty string; the anchor ^ only matches at index 0, so at most one leading hyphen is removed. -/
def dropLeadDash (l : List Char) : List Char :=
  match l with
  | [] => []
  | c :: rest => if c = '-' then rest else c :: rest

/-- Removes one trailing hyphen, the end-anchored half of the JS replace of (^-|-$)+ by the empty string. -/
def dropTrailDash : List Char → List Char
  | [] => []
  | [c] => if c = '-' then [] else [c]
  | c :: d :: rest => c :: dropTrailDash (d :: rest)

/-- Base slug derivation from a title (server.js lines 183 to 186, 265 to 268, 295 to 298; part_000 lines 54 to 57): lower-case, replace runs of characters outside a-z0-9 by one hyphen, strip one leading and one trailing hyphen (after run collapsing at most one of each exists). Char.toLower models the per-character JS toLowerCase. -/
def slugify (title : List Char) : List Char :=
  dropTrailDash (dropLeadDash (squeezeDashes (dashify (title.map Char.toLower))))

/-- True when the list has no two adjacent hyphens. -/
def noDD : List Char → Bool
  | c :: d :: rest => !(c = '-' && d = '-') && noDD (d :: rest)
  | _ => true

def isSlugChar (c : Char) : Bool := isLowerAlnum c || c = '-'

/-- ASCII alphanumeric characters, the reading of alphanumeric in the C1 claim. -/
def isAsciiAlnum (c : Char) : Bool :=
  (65 ≤ c.toNat && c.toNat ≤ 90) || (97 ≤ c.toNat && c.toNat ≤ 122) ||
    (48 ≤ c.toNat && c.toNat ≤ 57)

mutual
/-- Matcher for the regular expression [a-z0-9]+(-[a-z0-9]+)* of the spec: accepts one or more a-z0-9 blocks separated by single hyphens. -/
def chunkStart : List Char → Bool
  | [] => false
  | c :: rest => isLowerAlnum c && afterChar rest
/-- Continuation of the matcher after an accepted block character. -/
def afterChar : List Char → Bool
  | [] => true
  | c :: rest => if isLowerAlnum c then afterChar rest else (c = '-') && chunkStart rest
end

/-- Decimal digit to character. -/
def digitChar (d : Nat) : Char := Char.ofNat (48 + d)

/-- Fuel-based decimal conversion; with fuel at least n it yields the decimal digits of n. -/
def natToCharsAux : Nat → Nat → List Char
  | 0, _ => []
  | fuel + 1, n => if n = 0 then [] else natToCharsAux fuel (n / 10) ++ [digitChar (n % 10)]

/-- Decimal representation of a number as JS string interpolation produces it. -/
def natToChars (n : Nat) : List Char :=
  if n = 0 then ['0'] else natToCharsAux n n

/-- Candidate slugs probed by the uniqueness loop: base, base-1, base-2, and so on (server.js lines 270 to 276). -/
def slugCandidate (base : List Char) : Nat → List Char
  | 0 => base
  | k + 1 => base ++ '-' :: natToChars (k + 1)

/-- Persisted blog document (schema at server.js lines 166 to 177). The date and timestamp fields are omitted: no claim concerns them. -/
structure Post where
  id : List Char
  title : List Char
  slug : List Char
  author : List Char
  image : List Char
  summary : List Char
  content : List Char
deriving DecidableEq

/-- Persisted blog document (schema at server.js lines 166 to 177). The date and timestamp fields are omitted: no claim concerns them. -/
structure PostInput where
  title : Option (List Char)
  slug : Option (List Char)
  author : Option (List Char)
  image : Option (List Char)
  summary : Option (List Char)
  content : Option (List Char)
deriving DecidableEq

/-- Route outcome: ok payload or an error with HTTP status and message. -/
inductive ApiResult (α : Type) where
  | ok : α → ApiResult α
  | err : Nat → List Char → ApiResult α
deriving DecidableEq

/-- Match used by the probe loop: findOne on slug, excluding one id on update (server.js line 303). -/
def probeHit (excl : Option (List Char)) (s : List Char) (p : Post) : Bool :=
  decide (p.slug = s) && excl.all (fun e => decide (¬ p.id = e))

/-- The while loop of the slug generator with explicit fuel; the loop probes candidate k and moves to k+1 while a stored post matches (server.js lines 270 to 276 and 300 to 306; part_000 lines 59 to 64). On fuel exhaustion the current candidate is returned; claim C10 shows fuel store.length + 1 never exhausts. -/
def probeLoop (store : List Post) (excl : Option (List Char)) (base : List Char) :
    Nat → Nat → List Char
  | 0, k => slugCandidate base k
  | fuel + 1, k =>
    if store.any (probeHit excl (slugCandidate base k)) then
      probeLoop store excl base fuel (k + 1)
    else slugCandidate base k

/-- Slug uniqueness resolution: run the probe loop from candidate 0 with sufficient fuel. -/
def probeSlug (store : List Post) (excl : Option (List Char)) (base : List Char) : List Char :=
  probeLoop store excl base (store.length + 1) 0

/-- Required-field message of the title path (part_000 line 39). -/
def titleRequiredMsg : List Char := ("Title is required").toList

/-- Required-field message of the author path (part_000 line 41). -/
def authorRequiredMsg : List Char := ("Author is required").toList

/-- Required-field message of the image path (part_000 line 43). -/
def imageRequiredMsg : List Char := ("Image URL is required").toList

/-- Required-field message of the summary path (part_000 line 44). -/
def summaryRequiredMsg : List Char := ("Summary is required").toList

/-- Required-field message of the content path (part_000 line 45). -/
def contentRequiredMsg : List Char := ("Content is required").toList

/-- Duplicate-key response body (part_000 lines 132 to 136). -/
def dupKeyMsg : List Char :=
  ("A blog with this title already exists. Please choose another title.").toList

/-- Not-found response body. -/
def notFoundMsg : List Char := ("Blog not found").toList

/-- Catch-all body of the GET by id route (server.js line 82). -/
def serverErrorMsg : List Char := ("Server error").toList

/-- Catch-all body of the DELETE route (server.js line 326). -/
def deleteErrorMsg : List Char := ("Failed to delete blog").toList

/-- Fallback body of the PUT route catch (part_000 line 190), hit on identifier cast errors. -/
def updateFailMsg : List Char := ("Something went wrong while updating the blog.").toList

/-- Mongoose required validator on a String path at save: fails when the path is absent or the empty string. -/
def requiredMsg (field : Option (List Char)) (msg : List Char) : List (List Char) :=
  match field with
  | none => [msg]
  | some [] => [msg]
  | some (_ :: _) => []

/-- Validation of a new document in schema path order: title, author, image, summary, content are required; slug is not (server.js line 169). -/
def validateCreate (b : PostInput) : List (List Char) :=
  requiredMsg b.title titleRequiredMsg ++ requiredMsg b.author authorRequiredMsg ++
    requiredMsg b.image imageRequiredMsg ++ requiredMsg b.summary summaryRequiredMsg ++
    requiredMsg b.content contentRequiredMsg

/-- Mongoose required validator under runValidators on update: only paths present in the update are checked. -/
def presentMsg (field : Option (List Char)) (msg : List Char) : List (List Char) :=
  match field with
  | some [] => [msg]
  | _ => []

/-- Update validation (part_000 lines 168 to 171 use runValidators). -/
def validateUpdate (b : PostInput) : List (List Char) :=
  presentMsg b.title titleRequiredMsg ++ presentMsg b.author authorRequiredMsg ++
    presentMsg b.image imageRequiredMsg ++ presentMsg b.summary summaryRequiredMsg ++
    presentMsg b.content contentRequiredMsg

/-- JS Array.join with separator comma-space, applied to validation messages (part_000 line 141). -/
def joinComma : List (List Char) → List Char
  | [] => []
  | [m] => m
  | m :: rest => m ++ ',' :: ' ' :: joinComma rest

/-- Hexadecimal digit characters. -/
def isHexDigit (c : Char) : Bool :=
  (48 ≤ c.toNat && c.toNat ≤ 57) || (97 ≤ c.toNat && c.toNat ≤ 102) ||
    (65 ≤ c.toNat && c.toNat ≤ 70)

/-- Identifier accepted by the store id cast: 24 hexadecimal characters; anything else raises a CastError in the driver. Models the external ObjectId format. -/
def validId (id : List Char) : Bool := decide (id.length = 24) && id.all isHexDigit

/-- POST /api/blogs (server.js lines 259 to 286): optional date parse omitted (no claim concerns dates); route-level slug generation when slug absent and title truthy; then save, which validates, runs the pre-save hook (server.js lines 180 to 197; on a new document the title path is modified, so the hook regenerates the slug from the title), and inserts unless the unique index on id or slug rejects. -/
def createBlog (store : List Post) (newId : List Char) (b : PostInput) :
    ApiResult Post × List Post :=
  let b1 :=
    match b.slug, b.title with
    | none, some t =>
      if t ≠ [] then { b with slug := some (probeSlug store none (slugify t)) } else b
    | _, _ => b
  let msgs := validateCreate b1
  if msgs ≠ [] then (.err 400 (joinComma msgs), store)
  else
    match b1.title with
    | none => (.err 400 (joinComma msgs), store)
    | some t =>
      let s := probeSlug store none (slugify t)
      let p : Post := ⟨newId, t, s, b1.author.getD [], b1.image.getD [],
        b1.summary.getD [], b1.content.getD []⟩
      if store.any (fun q => decide (q.id = newId) || decide (q.slug = s)) then
        (.err 400 dupKeyMsg, store)
      else (.ok p, store ++ [p])

/-- Partial update semantics of findByIdAndUpdate: supplied fields replace, absent fields persist. -/
def applyUpd (p : Post) (b : PostInput) : Post :=
  { p with
    title := b.title.getD p.title
    slug := b.slug.getD p.slug
    author := b.author.getD p.author
    image := b.image.getD p.image
    summary := b.summary.getD p.summary
    content := b.content.getD p.content }

/-- Store effect of findByIdAndUpdate: the first document with the id is replaced. -/
def replaceFirst : List Post → List Char → Post → List Post
  | [], _, _ => []
  | q :: rest, id, p1 => if q.id = id then p1 :: rest else q :: replaceFirst rest id p1

/-- PUT /api/blogs/:id (server.js lines 289 to 316 with the runValidators and itemized errors of part_000 lines 149 to 192): a malformed id raises a cast error inside the first findOne or the update itself, caught as 400; when the title is truthy the slug is regenerated excluding the target id; document middleware does not run on findByIdAndUpdate, so a supplied slug passes through. -/
def updateBlog (store : List Post) (id : List Char) (b : PostInput) :
    ApiResult Post × List Post :=
  if !validId id then (.err 400 updateFailMsg, store)
  else
    let b1 :=
      match b.title with
      | some t =>
        if t ≠ [] then { b with slug := some (probeSlug store (some id) (slugify t)) } else b
      | none => b
    let msgs := validateUpdate b1
    if msgs ≠ [] then (.err 400 (joinComma msgs), store)
    else
      match store.find? (fun p => decide (p.id = id)) with
      | none => (.err 404 notFoundMsg, store)
      | some p =>
        let p1 := applyUpd p b1
        if store.any (fun q => decide (¬ q.id = id) && decide (q.slug = p1.slug)) then
          (.err 400 dupKeyMsg, store)
        else (.ok p1, replaceFirst store id p1)

/-- DELETE /api/blogs/:id (server.js lines 319 to 328): cast errors are caught by the 500 handler. -/
def deleteBlog (store : List Post) (id : List Char) : ApiResult Unit × List Post :=
  if !validId id then (.err 500 deleteErrorMsg, store)
  else
    match store.find? (fun p => decide (p.id = id)) with
    | none => (.err 404 notFoundMsg, store)
    | some _ => (.ok (), store.eraseP (fun p => decide (p.id = id)))

/-- GET /api/blogs/:id (server.js lines 75 to 84): cast errors are caught by the 500 handler. -/
def getBlogById (store : List Post) (id : List Char) : ApiResult Post :=
  if !validId id then .err 500 serverErrorMsg
  else
    match store.find? (fun p => decide (p.id = id)) with
    | none => .err 404 notFoundMsg
    | some p => .ok p

/-- Concrete store-assigned identifier for witnesses. -/
def demoId1 : List Char := ("aaaaaaaaaaaaaaaaaaaaaaaa").toList

/-- Concrete store-assigned identifier for witnesses. -/
def demoId2 : List Char := ("bbbbbbbbbbbbbbbbbbbbbbbb").toList

/-- Concrete store-assigned identifier for witnesses. -/
def demoId3 : List Char := ("cccccccccccccccccccccccc").toList

/-- Concrete valid create body with a given title. -/
def demoInput (t : List Char) : PostInput :=
  ⟨some t, none, some ("Ann").toList, some ("img.png").toList,
    some ("sum").toList, some ("body").toList⟩

/-- Single-character step of the store regex matcher with option i: a dot matches anything, other characters match case-insensitively. Partial model of the external store $regex semantics, sufficient for the patterns used in the claims. -/
def charMatches (pc c : Char) : Bool := decide (pc = '.') || decide (pc.toLower = c.toLower)

/-- Anchored match of the pattern at the head of the text. -/
def matchHere : List Char → List Char → Bool
  | [], _ => true
  | _ :: _, [] => false
  | pc :: ps, c :: cs => charMatches pc c && matchHere ps cs

/-- Unanchored search: the store regex match tries every position. -/
def regexFind (pat : List Char) : List Char → Bool
  | [] => matchHere pat []
  | c :: cs => matchHere pat (c :: cs) || regexFind pat cs

/-- Query built by the listing route (server.js lines 208 to 215): empty search matches everything, otherwise title or author must match the search treated as a case-insensitive regex. -/
def queryMatches (search : List Char) (p : Post) : Bool :=
  search.isEmpty || (regexFind search p.title || regexFind search p.author)

/-- Query built by the count route (server.js lines 230 to 237), textually the same construction as the listing query. -/
def countQueryMatches (search : List Char) (p : Post) : Bool :=
  search.isEmpty || (regexFind search p.title || regexFind search p.author)

/-- Filter stage of GET /api/blogs; sorting and pagination are orthogonal to the claims and omitted. -/
def listBlogsFilter (search : List Char) (store : List Post) : List Post :=
  store.filter (queryMatches search)

/-- GET /api/blogs/count: countDocuments on the query. -/
def countBlogs (search : List Char) (store : List Post) : Nat :=
  (store.filter (countQueryMatches search)).length

/-- Case-insensitive pointwise comparison at the head, following the spec words for search. -/
def lowerEqHere : List Char → List Char → Bool
  | [], _ => true
  | _ :: _, [] => false
  | sc :: ss, c :: cs => decide (sc.toLower = c.toLower) && lowerEqHere ss cs

/-- Follows the spec words: the text contains the search text, case-insensitive, substring semantics (not tokenized, not fuzzy, not pattern based). Used to compare against the implemented regex search. -/
def ciSubstr (s : List Char) : List Char → Bool
  | [] => lowerEqHere s []
  | c :: cs => lowerEqHere s (c :: cs) || ciSubstr s cs

/-- Follows the spec words: listing predicate with plain case-insensitive substring semantics on title or author. -/
def specSearchMatches (search : List Char) (p : Post) : Bool :=
  search.isEmpty || (ciSubstr search p.title || ciSubstr search p.author)

/-- Serialized sequence of create requests, each seeing the store left by the previous one. -/
def createSeq (store : List Post) : List (List Char × PostInput) → List Post
  | [] => store
  | (newId, b) :: rest => createSeq (createBlog store newId b).2 rest

/-- Create request of the C2 scenario: fixed title, no slug, passing validation. -/
def goodCreate (t : List Char) (r : List Char × PostInput) : Prop :=
  r.2.title = some t ∧ r.2.slug = none ∧ validateCreate r.2 = []

/-- Three serialized creates with the same title for the C2 witness. -/
def demoReqs : List (List Char × PostInput) :=
  [(demoId1, demoInput ("Hello, World!").toList),
   (demoId2, demoInput ("Hello, World!").toList),
   (demoId3, demoInput ("Hello, World!").toList)]

/-- Serialized store operations reachable through the API. -/
inductive Op where
  | create (newId : List Char) (b : PostInput)
  | update (id : List Char) (b : PostInput)
  | delete (id : List Char)
deriving DecidableEq

/-- Store effect of one operation. -/
def applyOp (store : List Post) : Op → List Post
  | .create newId b => (createBlog store newId b).2
  | .update id b => (updateBlog store id b).2
  | .delete id => (deleteBlog store id).2

/-- Store reached from the empty store by a serialized operation sequence. -/
def runOps (ops : List Op) : List Post := ops.foldl applyOp []

/-- Side condition of the amended C3 invariant: every supplied title that reaches the slug generator slugifies to a non-empty string, and an update supplying a slug without a title supplies a non-empty one. -/
def goodOpB : Op → Bool
  | .create _ b =>
    (match b.title with
     | some t => t.isEmpty || !(slugify t).isEmpty
     | none => true)
  | .update _ b =>
    (match b.title with
     | some t => t.isEmpty || !(slugify t).isEmpty
     | none => true) &&
    (match b.title, b.slug with
     | none, some s => !s.isEmpty
     | _, _ => true)
  | .delete _ => true

/-- Store invariant carried through the induction: ids pairwise distinct, slugs pairwise distinct, slugs non-empty. -/
def fullInv (store : List Post) : Prop :=
  (store.map Post.id).Nodup ∧ (store.map Post.slug).Nodup ∧ ∀ p ∈ store, p.slug ≠ []

/-- Decidable form of the C3 claim on a store: slugs pairwise distinct and non-empty. -/
def slugInvariant (store : List Post) : Bool :=
  decide ((store.map Post.slug).Nodup) && store.all (fun p => !p.slug.isEmpty)

/-- One create whose title contains no alphanumeric characters. -/
def c3ops : List Op :=
  [Op.create demoId1 ⟨some ("!!!").toList, none, some ("Ann").toList,
    some ("img").toList, some ("sum").toList, some ("body").toList⟩]

/-- Concrete operation sequence satisfying the amended C3 side condition. -/
def c3goodOps : List Op :=
  [Op.create demoId1 (demoInput ("Hello World").toList),
   Op.create demoId2 (demoInput ("Hello World").toList),
   Op.update demoId1 ⟨none, none, none, none, none, some ("new body").toList⟩,
   Op.delete demoId2]

/-- Create body supplying both a title and a slug. -/
def c4input : PostInput :=
  ⟨some ("Hello").toList, some ("custom").toList, some ("Ann").toList,
    some ("img").toList, some ("sum").toList, some ("body").toList⟩

/-- One-post store for the update claims. -/
def c5store : List Post :=
  [⟨demoId1, ("Title").toList, ("title").toList, ("Ann").toList, ("img").toList,
    ("sum").toList, ("body").toList⟩]

/-- Update body supplying a slug but no title. -/
def c5input : PostInput := ⟨none, some ("zzz").toList, none, none, none, none⟩

/-- One-post store with title abc for the search claims. -/
def c6store : List Post :=
  [⟨demoId1, ("abc").toList, ("abc").toList, ("xyz").toList, ("img").toList,
    ("sum").toList, ("body").toList⟩]

/-- True when the result is an error with a 5xx status. -/
def isServerErr {α : Type} : ApiResult α → Bool
  | .err s _ => decide (500 ≤ s)
  | .ok _ => false

lemma squeezeDashes_head : ∀ (c : Char) (rest : List Char),
    ∃ t, squeezeDashes (c :: rest) = c :: t := by
  intro c rest
  induction rest generalizing c with
  | nil => exact ⟨[], rfl⟩
  | cons d r ih =>
    rw [squeezeDashes]
    by_cases h : c = '-' && d = '-'
    · simp only [h, if_true]
      obtain ⟨t, ht⟩ := ih d
      simp only [Bool.and_eq_true, decide_eq_true_eq] at h
      exact ⟨t, by rw [ht, h.1, h.2]⟩
    · simp only [h, if_false]
      exact ⟨squeezeDashes (d :: r), rfl⟩

lemma noDD_squeezeDashes : ∀ l : List Char, noDD (squeezeDashes l) = true := by
  intro l
  induction l using squeezeDashes.induct with
  | case1 => rfl
  | case2 c => rfl
  | case3 c d rest h ih =>
    rw [squeezeDashes, if_pos h]; exact ih
  | case4 c d rest h ih =>
    rw [squeezeDashes, if_neg h]
    obtain ⟨t, ht⟩ := squeezeDashes_head d rest
    rw [ht]
    rw [ht] at ih
    rw [noDD, ih, Bool.and_true]
    simp only [Bool.and_eq_true, decide_eq_true_eq] at h ⊢
    simp only [Bool.not_eq_true', Bool.and_eq_false_iff, decide_eq_false_iff_not]
    tauto

lemma isLowerAlnum_toLower (c : Char) (h : isAsciiAlnum c = true) :
    isLowerAlnum c.toLower = true := by
  unfold Char.toLower
  simp only [isAsciiAlnum, Bool.or_eq_true, Bool.and_eq_true, decide_eq_true_eq] at h
  by_cases hc : c.toNat ≥ 65 ∧ c.toNat ≤ 90
  · rw [if_pos hc]
    have hv : (Char.ofNat (c.toNat + 32)).toNat = c.toNat + 32 := by
      unfold Char.ofNat
      rw [dif_pos (by left; omega)]
      rfl
    simp only [isLowerAlnum, Bool.or_eq_true, Bool.and_eq_true, decide_eq_true_eq, hv]
    omega
  · rw [if_neg hc]
    simp only [isLowerAlnum, Bool.or_eq_true, Bool.and_eq_true, decide_eq_true_eq]
    omega

lemma noDD_tail {c : Char} {l : List Char} (h : noDD (c :: l) = true) : noDD l = true := by
  cases l with
  | nil => rfl
  | cons d r => rw [noDD, Bool.and_eq_true] at h; exact h.2

lemma noDD_head {c d : Char} {l : List Char} (h : noDD (c :: d :: l) = true) :
    ¬(c = '-' ∧ d = '-') := by
  rw [noDD, Bool.and_eq_true] at h
  have := h.1
  simp only [Bool.not_eq_true', Bool.and_eq_false_iff, decide_eq_false_iff_not] at this
  tauto

lemma bridge : ∀ (n : Nat) (l : List Char), l.length ≤ n →
    l.all isSlugChar = true → noDD l = true → l.getLast? ≠ some '-' →
    afterChar l = true ∧ (l.head? ≠ some '-' → l ≠ [] → chunkStart l = true) := by
  intro n
  induction n with
  | zero =>
    intro l hlen _ _ _
    have : l = [] := List.eq_nil_of_length_eq_zero (Nat.le_zero.mp hlen)
    subst this
    exact ⟨rfl, fun _ h => absurd rfl h⟩
  | succ n ih =>
    intro l hlen hall hdd hlast
    cases l with
    | nil => exact ⟨rfl, fun _ h => absurd rfl h⟩
    | cons c rest =>
      have hcslug : isSlugChar c = true := by
        rw [List.all_eq_true] at hall
        exact hall c (List.mem_cons_self c rest)
      have hrest_all : rest.all isSlugChar = true := by
        rw [List.all_eq_true] at hall ⊢
        exact fun x hx => hall x (List.mem_cons_of_mem c hx)
      have hrest_dd : noDD rest = true := noDD_tail hdd
      have hrest_last : rest.getLast? ≠ some '-' := by
        cases rest with
        | nil => simp
        | cons d r =>
          rw [List.getLast?_cons_cons] at hlast
          exact hlast
      have hrest_len : rest.length ≤ n := by
        simp only [List.length_cons] at hlen; omega
      obtain ⟨hafter, hchunk⟩ := ih rest hrest_len hrest_all hrest_dd hrest_last
      constructor
      · -- afterChar (c :: rest)
        rw [afterChar]
        by_cases hca : isLowerAlnum c = true
        · rw [if_pos hca]; exact hafter
        · rw [if_neg hca]
          have hcd : c = '-' := by
            simp only [isSlugChar, Bool.or_eq_true, decide_eq_true_eq] at hcslug
            tauto
          subst hcd
          rw [Bool.and_eq_true]
          refine ⟨by simp, ?_⟩
          -- rest nonempty since last of ('-' :: rest) ≠ '-'
          cases rest with
          | nil => simp at hlast
          | cons d r =>
            apply hchunk
            · intro hd
              simp only [List.head?_cons, Option.some.injEq] at hd
              exact noDD_head hdd ⟨rfl, hd⟩
            · simp
      · -- chunkStart (c :: rest)
        intro hhead _
        rw [chunkStart, Bool.and_eq_true]
        have hcd : c ≠ '-' := by
          intro hc
          apply hhead
          rw [hc]
          rfl
        have hca : isLowerAlnum c = true := by
          simp only [isSlugChar, Bool.or_eq_true, decide_eq_true_eq] at hcslug
          tauto
        exact ⟨hca, hafter⟩

lemma squeezeDashes_subset : ∀ l : List Char, ∀ a ∈ squeezeDashes l, a ∈ l := by
  intro l
  induction l using squeezeDashes.induct with
  | case1 => intro a ha; exact ha
  | case2 c => intro a ha; exact ha
  | case3 c d rest h ih =>
    intro a ha
    rw [squeezeDashes, if_pos h] at ha
    exact List.mem_cons_of_mem c (ih a ha)
  | case4 c d rest h ih =>
    intro a ha
    rw [squeezeDashes, if_neg h] at ha
    rcases List.mem_cons.mp ha with h1 | h1
    · exact h1 ▸ List.mem_cons_self a _
    · exact List.mem_cons_of_mem c (ih a h1)

lemma squeezeDashes_retain : ∀ l : List Char, ∀ a ∈ l, a ≠ '-' → a ∈ squeezeDashes l := by
  intro l
  induction l using squeezeDashes.induct with
  | case1 => intro a ha _; exact ha
  | case2 c => intro a ha _; exact ha
  | case3 c d rest h ih =>
    intro a ha hne
    rw [squeezeDashes, if_pos h]
    rw [Bool.and_eq_true, decide_eq_true_eq, decide_eq_true_eq] at h
    rcases List.mem_cons.mp ha with h1 | h1
    · exact absurd (h1.trans h.1) hne
    · exact ih a h1 hne
  | case4 c d rest h ih =>
    intro a ha hne
    rw [squeezeDashes, if_neg h]
    rcases List.mem_cons.mp ha with h1 | h1
    · exact h1 ▸ List.mem_cons_self a _
    · exact List.mem_cons_of_mem c (ih a h1 hne)

lemma dropLeadDash_subset (l : List Char) : ∀ a ∈ dropLeadDash l, a ∈ l := by
  cases l with
  | nil => intro a ha; exact ha
  | cons c rest =>
    intro a ha
    rw [dropLeadDash] at ha
    by_cases hc : c = '-'
    · rw [if_pos hc] at ha; exact List.mem_cons_of_mem c ha
    · rwa [if_neg hc] at ha

lemma dropLeadDash_retain (l : List Char) : ∀ a ∈ l, a ≠ '-' → a ∈ dropLeadDash l := by
  cases l with
  | nil => intro a ha _; exact ha
  | cons c rest =>
    intro a ha hne
    rw [dropLeadDash]
    by_cases hc : c = '-'
    · rw [if_pos hc]
      rcases List.mem_cons.mp ha with h1 | h1
      · exact absurd (h1.trans hc) hne
      · exact h1
    · rwa [if_neg hc]

lemma dropLeadDash_noDD {l : List Char} (h : noDD l = true) : noDD (dropLeadDash l) = true := by
  cases l with
  | nil => rfl
  | cons c rest =>
    rw [dropLeadDash]
    by_cases hc : c = '-'
    · rw [if_pos hc]; exact noDD_tail h
    · rwa [if_neg hc]

lemma dropLeadDash_head {l : List Char} (h : noDD l = true) :
    (dropLeadDash l).head? ≠ some '-' := by
  cases l with
  | nil => simp [dropLeadDash]
  | cons c rest =>
    rw [dropLeadDash]
    by_cases hc : c = '-'
    · rw [if_pos hc]
      cases rest with
      | nil => simp
      | cons d r =>
        intro hd
        rw [List.head?_cons, Option.some.injEq] at hd
        exact noDD_head h ⟨hc, hd⟩
    · rw [if_neg hc]
      intro hd
      rw [List.head?_cons, Option.some.injEq] at hd
      exact hc hd

lemma dropTrailDash_subset : ∀ l : List Char, ∀ a ∈ dropTrailDash l, a ∈ l := by
  intro l
  induction l with
  | nil => intro a ha; exact ha
  | cons c rest ih =>
    intro a ha
    cases rest with
    | nil =>
      rw [dropTrailDash] at ha
      by_cases hc : c = '-'
      · rw [if_pos hc] at ha; exact absurd ha (List.not_mem_nil a)
      · rwa [if_neg hc] at ha
    | cons d r =>
      rw [dropTrailDash] at ha
      rcases List.mem_cons.mp ha with h1 | h1
      · exact h1 ▸ List.mem_cons_self a _
      · exact List.mem_cons_of_mem c (ih a h1)

lemma dropTrailDash_retain : ∀ l : List Char, ∀ a ∈ l, a ≠ '-' → a ∈ dropTrailDash l := by
  intro l
  induction l with
  | nil => intro a ha _; exact ha
  | cons c rest ih =>
    intro a ha hne
    cases rest with
    | nil =>
      rw [dropTrailDash]
      rcases List.mem_cons.mp ha with h1 | h1
      · subst h1
        rw [if_neg hne]
        exact List.mem_cons_self a []
      · exact absurd h1 (List.not_mem_nil a)
    | cons d r =>
      rw [dropTrailDash]
      rcases List.mem_cons.mp ha with h1 | h1
      · exact h1 ▸ List.mem_cons_self a _
      · exact List.mem_cons_of_mem c (ih a h1 hne)

lemma dropTrailDash_head_cases : ∀ l : List Char,
    (dropTrailDash l).head? = l.head? ∨ dropTrailDash l = [] := by
  intro l
  cases l with
  | nil => right; rfl
  | cons c rest =>
    cases rest with
    | nil =>
      rw [dropTrailDash]
      by_cases hc : c = '-'
      · right; rw [if_pos hc]
      · left; rw [if_neg hc]
    | cons d r => left; rw [dropTrailDash]; simp

lemma dropTrailDash_noDD : ∀ l : List Char, noDD l = true → noDD (dropTrailDash l) = true := by
  intro l
  induction l with
  | nil => intro _; rfl
  | cons c rest ih =>
    intro h
    cases rest with
    | nil =>
      rw [dropTrailDash]
      by_cases hc : c = '-'
      · rw [if_pos hc]; rfl
      · rw [if_neg hc]; rfl
    | cons d r =>
      rw [dropTrailDash]
      have h2 := ih (noDD_tail h)
      cases hx : dropTrailDash (d :: r) with
      | nil => rfl
      | cons e t =>
        have he : e = d := by
          cases r with
          | nil =>
            rw [dropTrailDash] at hx
            by_cases hd : d = '-'
            · rw [if_pos hd] at hx; exact absurd hx.symm (List.cons_ne_nil e t)
            · rw [if_neg hd] at hx
              exact (((List.cons.injEq d [] e t).mp hx).1).symm
          | cons f r2 =>
            rw [dropTrailDash] at hx
            exact (((List.cons.injEq d _ e t).mp hx).1).symm
        subst he
        rw [noDD, Bool.and_eq_true]
        constructor
        · have := noDD_head h
          simp only [Bool.not_eq_true', Bool.and_eq_false_iff, decide_eq_false_iff_not]
          tauto
        · rw [hx] at h2; exact h2

lemma dropTrailDash_last : ∀ l : List Char, noDD l = true →
    (dropTrailDash l).getLast? ≠ some '-' := by
  intro l
  induction l with
  | nil => intro _; simp [dropTrailDash]
  | cons c rest ih =>
    intro h
    cases rest with
    | nil =>
      rw [dropTrailDash]
      by_cases hc : c = '-'
      · rw [if_pos hc]; simp
      · rw [if_neg hc]; simp [hc]
    | cons d r =>
      rw [dropTrailDash]
      have h2 := ih (noDD_tail h)
      cases hx : dropTrailDash (d :: r) with
      | nil =>
        have hcd : ¬(c = '-' ∧ d = '-') := noDD_head h
        have hdm : d = '-' := by
          cases r with
          | nil =>
            rw [dropTrailDash] at hx
            by_cases hd : d = '-'
            · exact hd
            · rw [if_neg hd] at hx; exact absurd hx (List.cons_ne_nil d [])
          | cons f r2 =>
            rw [dropTrailDash] at hx
            exact absurd hx (List.cons_ne_nil d _)
        simp only [List.getLast?_singleton]
        intro hcc
        rw [Option.some.injEq] at hcc
        exact hcd ⟨hcc, hdm⟩
      | cons e t =>
        rw [List.getLast?_cons_cons]
        rw [hx] at h2
        exact h2

lemma dashify_all (l : List Char) : (dashify l).all isSlugChar = true := by
  rw [List.all_eq_true]
  intro x hx
  rw [dashify, List.mem_map] at hx
  obtain ⟨c, _, hc⟩ := hx
  by_cases h : isLowerAlnum c = true
  · rw [if_pos h] at hc
    rw [← hc, isSlugChar, h, Bool.true_or]
  · rw [if_neg h] at hc
    rw [← hc, isSlugChar]
    simp

/-- C1: for every title, the computed slug consists only of lower-case slug characters and matches the pattern [a-z0-9]+(-[a-z0-9]+)* as accepted by the chunkStart matcher, or it is empty and then the title contains no ASCII alphanumeric character. -/
theorem slugify_wellformed (T : List Char) :
    ((slugify T).all isSlugChar = true ∧ chunkStart (slugify T) = true) ∨
    (slugify T = [] ∧ T.all (fun c => !(isAsciiAlnum c)) = true) := by
  set L := T.map Char.toLower with hL
  set D := dashify L with hD
  set s := squeezeDashes D with hs
  set q := dropLeadDash s with hq
  have hr : slugify T = dropTrailDash q := rfl
  -- invariants along the pipeline
  have hD_all : D.all isSlugChar = true := dashify_all L
  have hs_all : s.all isSlugChar = true := by
    rw [List.all_eq_true] at hD_all ⊢
    exact fun x hx => hD_all x (squeezeDashes_subset D x hx)
  have hs_dd : noDD s = true := noDD_squeezeDashes D
  have hq_all : q.all isSlugChar = true := by
    rw [List.all_eq_true] at hs_all ⊢
    exact fun x hx => hs_all x (dropLeadDash_subset s x hx)
  have hq_dd : noDD q = true := dropLeadDash_noDD hs_dd
  have hq_head : q.head? ≠ some '-' := dropLeadDash_head hs_dd
  have hr_all : (slugify T).all isSlugChar = true := by
    rw [hr, List.all_eq_true]
    rw [List.all_eq_true] at hq_all
    exact fun x hx => hq_all x (dropTrailDash_subset q x hx)
  have hr_dd : noDD (slugify T) = true := hr ▸ dropTrailDash_noDD q hq_dd
  have hr_last : (slugify T).getLast? ≠ some '-' := hr ▸ dropTrailDash_last q hq_dd
  have hr_head : (slugify T).head? ≠ some '-' ∨ slugify T = [] := by
    rcases dropTrailDash_head_cases q with h1 | h1
    · left; rw [hr, h1]; exact hq_head
    · right; rw [hr, h1]
  by_cases hemp : T.all (fun c => !(isAsciiAlnum c)) = true
  · by_cases hnil : slugify T = []
    · exact Or.inr ⟨hnil, hemp⟩
    · rcases hr_head with hh | hh
      · exact Or.inl ⟨hr_all, (bridge (slugify T).length (slugify T) le_rfl hr_all hr_dd hr_last).2 hh hnil⟩
      · exact absurd hh hnil
  · -- some character of T is ASCII alphanumeric: the slug is nonempty
    left
    rw [List.all_eq_true] at hemp
    push_neg at hemp
    obtain ⟨c0, hc0mem, hc0⟩ := hemp
    have hc0a : isAsciiAlnum c0 = true := by
      revert hc0
      cases isAsciiAlnum c0 <;> simp
    have hd : isLowerAlnum c0.toLower = true := isLowerAlnum_toLower c0 hc0a
    have hdne : c0.toLower ≠ '-' := by
      intro hcc
      rw [hcc] at hd
      exact absurd hd (by decide)
    have h1 : c0.toLower ∈ L := hL ▸ List.mem_map_of_mem Char.toLower hc0mem
    have h2 : c0.toLower ∈ D := by
      rw [hD, dashify, List.mem_map]
      exact ⟨c0.toLower, h1, by rw [if_pos hd]⟩
    have h3 : c0.toLower ∈ s := squeezeDashes_retain D c0.toLower h2 hdne
    have h4 : c0.toLower ∈ q := dropLeadDash_retain s c0.toLower h3 hdne
    have h5 : c0.toLower ∈ slugify T := hr ▸ dropTrailDash_retain q c0.toLower h4 hdne
    have hnil : slugify T ≠ [] := List.ne_nil_of_mem h5
    rcases hr_head with hh | hh
    · exact ⟨hr_all, (bridge (slugify T).length (slugify T) le_rfl hr_all hr_dd hr_last).2 hh hnil⟩
    · exact absurd hh hnil

lemma natToCharsAux_eq_digits : ∀ (fuel n : Nat), n ≤ fuel →
    natToCharsAux fuel n = ((Nat.digits 10 n).map digitChar).reverse := by
  intro fuel
  induction fuel with
  | zero =>
    intro n hn
    have : n = 0 := Nat.le_zero.mp hn
    subst this
    simp [natToCharsAux]
  | succ f ih =>
    intro n hn
    by_cases h0 : n = 0
    · subst h0; simp [natToCharsAux]
    · rw [natToCharsAux, if_neg h0]
      have hdiv : n / 10 ≤ f := by
        have hlt : n / 10 < n := Nat.div_lt_self (Nat.pos_of_ne_zero h0) (by omega)
        omega
      rw [ih (n / 10) hdiv]
      rw [Nat.digits_def' (by omega : 1 < 10) (Nat.pos_of_ne_zero h0)]
      rw [List.map_cons, List.reverse_cons]

lemma natToChars_eq_digits {n : Nat} (h : n ≠ 0) :
    natToChars n = ((Nat.digits 10 n).map digitChar).reverse := by
  rw [natToChars, if_neg h]
  exact natToCharsAux_eq_digits n n le_rfl

lemma digitChar_inj {d1 d2 : Nat} (h1 : d1 < 10) (h2 : d2 < 10)
    (h : digitChar d1 = digitChar d2) : d1 = d2 := by
  have : ∀ a < 10, ∀ b < 10, digitChar a = digitChar b → a = b := by decide
  exact this d1 h1 d2 h2 h

lemma map_digitChar_inj : ∀ (l1 l2 : List Nat), (∀ d ∈ l1, d < 10) → (∀ d ∈ l2, d < 10) →
    l1.map digitChar = l2.map digitChar → l1 = l2 := by
  intro l1
  induction l1 with
  | nil =>
    intro l2 _ _ h
    cases l2 with
    | nil => rfl
    | cons d t => exact absurd h (by simp)
  | cons d1 t1 ih =>
    intro l2 hb1 hb2 h
    cases l2 with
    | nil => exact absurd h (by simp)
    | cons d2 t2 =>
      simp only [List.map_cons, List.cons.injEq] at h
      have hd : d1 = d2 :=
        digitChar_inj (hb1 d1 (List.mem_cons_self d1 t1)) (hb2 d2 (List.mem_cons_self d2 t2)) h.1
      have ht : t1 = t2 :=
        ih t2 (fun d hd => hb1 d (List.mem_cons_of_mem d1 hd))
          (fun d hd => hb2 d (List.mem_cons_of_mem d2 hd)) h.2
      rw [hd, ht]

lemma digits_ne_nil_iff (n : Nat) : Nat.digits 10 n = [] ↔ n = 0 := by
  constructor
  · intro h
    have := Nat.ofDigits_digits 10 n
    rw [h] at this
    simpa using this.symm
  · intro h; subst h; simp

lemma natToChars_inj : Function.Injective natToChars := by
  intro a b h
  by_cases ha : a = 0 <;> by_cases hb : b = 0
  · rw [ha, hb]
  · exfalso
    rw [ha, natToChars, if_pos rfl, natToChars_eq_digits hb] at h
    have hdig := (digits_ne_nil_iff b).not.mpr hb
    cases hd : Nat.digits 10 b with
    | nil => exact hdig hd
    | cons d t =>
      rw [hd] at h
      have hlen := congrArg List.length h
      simp only [List.length_reverse, List.length_map, List.length_cons,
        List.length_singleton] at hlen
      have ht : t = [] := by
        cases t with
        | nil => rfl
        | cons e r => simp at hlen
      subst ht
      simp only [List.map_cons, List.map_nil, List.reverse_singleton, List.cons.injEq] at h
      have hdlt : d < 10 := Nat.digits_lt_base (by omega) (hd ▸ List.mem_cons_self d [])
      have hd0 : d = 0 := (digitChar_inj (by omega) hdlt (by rw [← h.1]; decide)).symm
      have := Nat.ofDigits_digits 10 b
      rw [hd, hd0] at this
      simp [Nat.ofDigits] at this
      exact hb this.symm
  · exfalso
    rw [hb, show natToChars 0 = ['0'] from by decide, natToChars_eq_digits ha] at h
    have hdig := (digits_ne_nil_iff a).not.mpr ha
    cases hd : Nat.digits 10 a with
    | nil => exact hdig hd
    | cons d t =>
      rw [hd] at h
      have hlen := congrArg List.length h
      simp only [List.length_reverse, List.length_map, List.length_cons,
        List.length_singleton] at hlen
      have ht : t = [] := by
        cases t with
        | nil => rfl
        | cons e r => simp at hlen
      subst ht
      simp only [List.map_cons, List.map_nil, List.reverse_singleton, List.cons.injEq] at h
      have hdlt : d < 10 := Nat.digits_lt_base (by omega) (hd ▸ List.mem_cons_self d [])
      have hd0 : d = 0 := digitChar_inj hdlt (by omega) (by rw [h.1]; decide)
      have := Nat.ofDigits_digits 10 a
      rw [hd, hd0] at this
      simp [Nat.ofDigits] at this
      exact ha this.symm
  · rw [natToChars_eq_digits ha, natToChars_eq_digits hb] at h
    have h2 := List.reverse_injective h
    have h3 := map_digitChar_inj _ _
      (fun d hd => Nat.digits_lt_base (by omega) hd)
      (fun d hd => Nat.digits_lt_base (by omega) hd) h2
    have h4 := congrArg (Nat.ofDigits 10) h3
    rwa [Nat.ofDigits_digits, Nat.ofDigits_digits] at h4

lemma slugCandidate_inj (base : List Char) : Function.Injective (slugCandidate base) := by
  intro j k h
  match j, k with
  | 0, 0 => rfl
  | 0, k + 1 =>
    exfalso
    rw [slugCandidate, slugCandidate] at h
    have := congrArg List.length h
    simp at this
  | j + 1, 0 =>
    exfalso
    rw [slugCandidate, slugCandidate] at h
    have := congrArg List.length h
    simp at this
  | j + 1, k + 1 =>
    rw [slugCandidate, slugCandidate] at h
    have h2 := List.append_cancel_left h
    rw [List.cons.injEq] at h2
    exact natToChars_inj h2.2

lemma natToChars_ne_nil (n : Nat) : natToChars n ≠ [] := by
  by_cases h : n = 0
  · subst h; simp [natToChars]
  · rw [natToChars_eq_digits h]
    simp only [ne_eq, List.reverse_eq_nil_iff, List.map_eq_nil_iff]
    exact (digits_ne_nil_iff n).not.mpr h

lemma slugCandidate_ne_nil {base : List Char} (hb : base ≠ []) (k : Nat) :
    slugCandidate base k ≠ [] := by
  cases k with
  | zero => exact hb
  | succ j =>
    rw [slugCandidate]
    simp

/-- C7: the count operation returns exactly the number of posts selected by the listing match predicate; the two routes build the same query. -/
theorem count_uses_list_predicate (search : List Char) (store : List Post) :
    countBlogs search store = (listBlogsFilter search store).length := rfl

lemma matchHere_eq_lowerEqHere : ∀ (pat t : List Char),
    pat.all (fun c => isAsciiAlnum c || decide (c = ' ')) = true →
    matchHere pat t = lowerEqHere pat t := by
  intro pat
  induction pat with
  | nil => intro t _; cases t <;> rfl
  | cons pc ps ih =>
    intro t hall
    rw [List.all_cons, Bool.and_eq_true] at hall
    cases t with
    | nil => rfl
    | cons c cs =>
      rw [matchHere, lowerEqHere, ih cs hall.2]
      have hpc : charMatches pc c = decide (pc.toLower = c.toLower) := by
        rw [charMatches]
        have : ¬ pc = '.' := by
          have h1 := hall.1
          rw [Bool.or_eq_true] at h1
          intro hcc
          subst hcc
          rcases h1 with h1 | h1
          · exact absurd h1 (by decide)
          · exact absurd h1 (by decide)
        rw [decide_eq_false this, Bool.false_or]
      rw [hpc]

lemma regexFind_eq_ciSubstr (pat : List Char)
    (hall : pat.all (fun c => isAsciiAlnum c || decide (c = ' ')) = true) :
    ∀ t : List Char, regexFind pat t = ciSubstr pat t := by
  intro t
  induction t with
  | nil => rw [regexFind, ciSubstr, matchHere_eq_lowerEqHere pat [] hall]
  | cons c cs ih =>
    rw [regexFind, ciSubstr, matchHere_eq_lowerEqHere pat (c :: cs) hall, ih]

lemma probeLoop_ret (store : List Post) (excl : Option (List Char)) (base : List Char) :
    ∀ (m fuel k : Nat), m < fuel →
    (∀ i, i < m → store.any (probeHit excl (slugCandidate base (k + i))) = true) →
    store.any (probeHit excl (slugCandidate base (k + m))) = false →
    probeLoop store excl base fuel k = slugCandidate base (k + m) := by
  intro m
  induction m with
  | zero =>
    intro fuel k hf _ hfree
    cases fuel with
    | zero => omega
    | succ f =>
      rw [probeLoop]
      rw [Nat.add_zero] at hfree
      rw [hfree]
      simp
  | succ m ih =>
    intro fuel k hf hocc hfree
    cases fuel with
    | zero => omega
    | succ f =>
      rw [probeLoop]
      have h0 : store.any (probeHit excl (slugCandidate base (k + 0))) = true :=
        hocc 0 (Nat.succ_pos m)
      rw [Nat.add_zero] at h0
      rw [h0]
      simp only [if_true]
      have := ih f (k + 1) (by omega)
        (fun i hi => by
          have := hocc (i + 1) (by omega)
          rwa [show k + (i + 1) = k + 1 + i by omega] at this)
        (by rwa [show k + 1 + m = k + (m + 1) by omega])
      rwa [show k + 1 + m = k + (m + 1) by omega] at this

lemma length_filter_or_disj (l : List Post) (p q : Post → Bool)
    (hdisj : ∀ a, ¬(p a = true ∧ q a = true)) :
    (l.filter (fun a => p a || q a)).length = (l.filter p).length + (l.filter q).length := by
  induction l with
  | nil => rfl
  | cons x t ih =>
    rw [List.filter_cons, List.filter_cons, List.filter_cons]
    cases hp : p x <;> cases hq : q x
    · simp [hp, hq]
      exact ih
    · simp [hp, hq]
      omega
    · simp [hp, hq]
      omega
    · exact absurd ⟨hp, hq⟩ (hdisj x)

lemma probeLoop_free (store : List Post) (excl : Option (List Char)) (base : List Char) :
    ∀ (fuel k : Nat),
    (store.filter (fun p =>
      ((List.range' k fuel).map (slugCandidate base)).any (fun s => probeHit excl s p))).length
      < fuel →
    store.any (probeHit excl (probeLoop store excl base fuel k)) = false := by
  intro fuel
  induction fuel with
  | zero => intro k h; omega
  | succ f ih =>
    intro k hcount
    rw [probeLoop]
    cases hocc : store.any (probeHit excl (slugCandidate base k)) with
    | false => simpa using hocc
    | true =>
      simp only [if_true]
      apply ih (k + 1)
      -- split the count at candidate k
      have hsplit :
          (store.filter (fun p =>
            ((List.range' k (f + 1)).map (slugCandidate base)).any
              (fun s => probeHit excl s p))).length =
          (store.filter (fun p => probeHit excl (slugCandidate base k) p)).length +
          (store.filter (fun p =>
            ((List.range' (k + 1) f).map (slugCandidate base)).any
              (fun s => probeHit excl s p))).length := by
        rw [show List.range' k (f + 1) = k :: List.range' (k + 1) f from List.range'_succ k f 1]
        rw [List.map_cons]
        have heq : ∀ p : Post,
            ((slugCandidate base k :: (List.range' (k + 1) f).map (slugCandidate base)).any
              (fun s => probeHit excl s p)) =
            (probeHit excl (slugCandidate base k) p ||
              ((List.range' (k + 1) f).map (slugCandidate base)).any
                (fun s => probeHit excl s p)) := by
          intro p
          rw [List.any_cons]
        rw [List.filter_congr (fun p _ => heq p)]
        apply length_filter_or_disj
        intro p ⟨h1, h2⟩
        rw [List.any_eq_true] at h2
        obtain ⟨s, hs, hhit⟩ := h2
        rw [List.mem_map] at hs
        obtain ⟨j, hj, hjs⟩ := hs
        rw [List.mem_range'_1] at hj
        -- p.slug equals both candidate k and candidate j with j ≥ k+1
        simp only [probeHit, Bool.and_eq_true, decide_eq_true_eq] at h1 hhit
        have : slugCandidate base k = s := by rw [← h1.1, hhit.1]
        rw [← hjs] at this
        have := slugCandidate_inj base this
        omega
      have hpos :
          0 < (store.filter (fun p => probeHit excl (slugCandidate base k) p)).length := by
        rw [List.any_eq_true] at hocc
        obtain ⟨p, hp, hhit⟩ := hocc
        have : p ∈ store.filter (fun p => probeHit excl (slugCandidate base k) p) :=
          List.mem_filter.mpr ⟨hp, hhit⟩
        exact List.length_pos.mpr (List.ne_nil_of_mem this)
      omega

/-- C10: the candidate slugs probed from any base are pairwise distinct over the first store-size plus one indices, and the probe loop run with that much fuel returns a slug matched by no stored post (subject to the update exclusion), so the loop terminates within store-size plus one probes. -/
theorem probe_terminates (store : List Post) (excl : Option (List Char)) (base : List Char) :
    ((List.range (store.length + 1)).map (slugCandidate base)).Nodup ∧
    store.any (probeHit excl (probeSlug store excl base)) = false := by
  constructor
  · exact (List.nodup_range (store.length + 1)).map (slugCandidate_inj base)
  · rw [probeSlug]
    apply probeLoop_free
    calc (store.filter (fun p =>
        ((List.range' 0 (store.length + 1)).map (slugCandidate base)).any
          (fun s => probeHit excl s p))).length
        ≤ store.length := List.length_filter_le _ store
      _ < store.length + 1 := Nat.lt_succ_self _

lemma probeLoop_is_candidate (store : List Post) (excl : Option (List Char)) (base : List Char) :
    ∀ (fuel k : Nat), ∃ m, probeLoop store excl base fuel k = slugCandidate base m := by
  intro fuel
  induction fuel with
  | zero => intro k; exact ⟨k, rfl⟩
  | succ f ih =>
    intro k
    rw [probeLoop]
    by_cases h : store.any (probeHit excl (slugCandidate base k)) = true
    · rw [h]
      simpa using ih (k + 1)
    · rw [Bool.not_eq_true] at h
      rw [h]
      exact ⟨k, by simp⟩

lemma probeSlug_ne_nil (store : List Post) (excl : Option (List Char)) {base : List Char}
    (hb : base ≠ []) : probeSlug store excl base ≠ [] := by
  obtain ⟨m, hm⟩ := probeLoop_is_candidate store excl base (store.length + 1) 0
  rw [probeSlug, hm]
  exact slugCandidate_ne_nil hb m

lemma validateCreate_slug_irrel (b : PostInput) (s : Option (List Char)) :
    validateCreate { b with slug := s } = validateCreate b := rfl

lemma validateCreate_title_ne_nil {b : PostInput} {t : List Char}
    (ht : b.title = some t) (hv : validateCreate b = []) : t ≠ [] := by
  intro hnil
  rw [validateCreate, ht, hnil] at hv
  simp [requiredMsg] at hv

lemma createBlog_step {store : List Post} {t : List Char} {k : Nat}
    (hslugs : store.map Post.slug = (List.range k).map (slugCandidate (slugify t)))
    {newId : List Char} {b : PostInput}
    (hfresh : newId ∉ store.map Post.id)
    (htitle : b.title = some t) (hslug : b.slug = none) (hval : validateCreate b = []) :
    (createBlog store newId b).2 = store ++
      [⟨newId, t, slugCandidate (slugify t) k, b.author.getD [], b.image.getD [],
        b.summary.getD [], b.content.getD []⟩] := by
  have htne : t ≠ [] := validateCreate_title_ne_nil htitle hval
  have hlen : store.length = k := by
    have := congrArg List.length hslugs
    simpa using this
  -- the probe returns candidate k
  have hprobe : probeSlug store none (slugify t) = slugCandidate (slugify t) k := by
    rw [probeSlug]
    have := probeLoop_ret store none (slugify t) k (store.length + 1) 0 (by omega)
      (fun i hi => by
        rw [List.any_eq_true]
        have hmem : slugCandidate (slugify t) i ∈ store.map Post.slug := by
          rw [hslugs, List.mem_map]
          exact ⟨i, List.mem_range.mpr hi, rfl⟩
        rw [List.mem_map] at hmem
        obtain ⟨p, hp, hps⟩ := hmem
        exact ⟨p, hp, by simp [probeHit, hps]⟩)
      (by
        rw [← Bool.not_eq_true, List.any_eq_true]
        rintro ⟨p, hp, hhit⟩
        simp only [probeHit, Option.all_none, Bool.and_true, decide_eq_true_eq] at hhit
        have : p.slug ∈ store.map Post.slug := List.mem_map_of_mem Post.slug hp
        rw [hslugs, List.mem_map] at this
        obtain ⟨j, hj, hjs⟩ := this
        rw [List.mem_range] at hj
        rw [hhit] at hjs
        have := slugCandidate_inj (slugify t) hjs
        omega)
    simpa using this
  -- evaluate createBlog
  rw [createBlog]
  simp only [hslug, htitle]
  rw [if_pos htne]
  rw [hprobe]
  have hv2 : validateCreate ⟨some t, some (slugCandidate (slugify t) k), b.author, b.image,
      b.summary, b.content⟩ = validateCreate b := by
    rw [validateCreate, validateCreate, htitle]
  rw [hv2, hval]
  simp only [ne_eq, not_true_eq_false, if_false, reduceIte]
  rw [hprobe]
  have hins : store.any
      (fun q => decide (q.id = newId) ||
        decide (q.slug = slugCandidate (slugify t) k)) = false := by
    rw [← Bool.not_eq_true, List.any_eq_true]
    rintro ⟨q, hq, hhit⟩
    rw [Bool.or_eq_true, decide_eq_true_eq, decide_eq_true_eq] at hhit
    rcases hhit with h1 | h1
    · exact hfresh (h1 ▸ List.mem_map_of_mem Post.id hq)
    · have : q.slug ∈ store.map Post.slug := List.mem_map_of_mem Post.slug hq
      rw [hslugs, List.mem_map] at this
      obtain ⟨j, hj, hjs⟩ := this
      rw [List.mem_range] at hj
      rw [h1] at hjs
      have := slugCandidate_inj (slugify t) hjs
      omega
  rw [hins]
  simp

lemma createSeq_slugs (t : List Char) :
    ∀ (reqs : List (List Char × PostInput)) (store : List Post) (k : Nat),
    store.map Post.slug = (List.range k).map (slugCandidate (slugify t)) →
    (reqs.map Prod.fst).Nodup →
    (∀ r ∈ reqs, goodCreate t r ∧ r.1 ∉ store.map Post.id) →
    (createSeq store reqs).map Post.slug =
      (List.range (k + reqs.length)).map (slugCandidate (slugify t)) := by
  intro reqs
  induction reqs with
  | nil =>
    intro store k hslugs _ _
    simpa using hslugs
  | cons r rest ih =>
    intro store k hslugs hnodup hgood
    have hg := hgood r (List.mem_cons_self r rest)
    have hgc : goodCreate t r := hg.1
    have hfresh := hg.2
    rw [goodCreate] at hgc
    have htitle := hgc.1
    have hslug := hgc.2.1
    have hval := hgc.2.2
    obtain ⟨newId, b⟩ := r
    rw [createSeq]
    have hstep := createBlog_step hslugs hfresh htitle hslug hval
    rw [hstep]
    have hnew : (store ++ [(⟨newId, t, slugCandidate (slugify t) k, b.author.getD [],
        b.image.getD [], b.summary.getD [], b.content.getD []⟩ : Post)]).map Post.slug =
        (List.range (k + 1)).map (slugCandidate (slugify t)) := by
      rw [List.map_append, hslugs, List.range_succ, List.map_append]
      rfl
    have := ih _ (k + 1) hnew
      (by
        rw [List.map_cons] at hnodup
        exact hnodup.of_cons)
      (by
        intro r2 hr2
        refine ⟨(hgood r2 (List.mem_cons_of_mem _ hr2)).1, ?_⟩
        rw [List.map_append, List.mem_append]
        rintro (h1 | h1)
        · exact (hgood r2 (List.mem_cons_of_mem _ hr2)).2 h1
        · simp only [List.map_cons, List.map_nil, List.mem_singleton] at h1
          rw [List.map_cons, List.nodup_cons] at hnodup
          have hmm := List.mem_map_of_mem Prod.fst hr2
          rw [h1] at hmm
          exact hnodup.1 hmm
      )
    rw [this]
    have : k + 1 + rest.length = k + (rest.length + 1) := by omega
    rw [this]
    rfl

/-- C2: starting from the empty store, a serialized sequence of creates that all supply the same title and no slug, with pairwise distinct fresh ids and bodies passing validation, stores the slugs base, base-1, base-2, and so on, in creation order. -/
theorem create_sequence_slugs (t : List Char) (reqs : List (List Char × PostInput))
    (hnodup : (reqs.map Prod.fst).Nodup)
    (hgood : ∀ r ∈ reqs, goodCreate t r) :
    (createSeq [] reqs).map Post.slug =
      (List.range reqs.length).map (slugCandidate (slugify t)) := by
  have := createSeq_slugs t reqs [] 0 (by simp) hnodup
    (fun r hr => ⟨hgood r hr, by simp⟩)
  simpa using this

/-- C2: starting from the empty store, a serialized sequence of creates that all supply the same title and no slug, with pairwise distinct fresh ids and bodies passing validation, stores the slugs base, base-1, base-2, and so on, in creation order. -/
theorem create_sequence_slugs_witness :
    (createSeq [] demoReqs).map Post.slug =
      (List.range demoReqs.length).map (slugCandidate (slugify ("Hello, World!").toList)) :=
  create_sequence_slugs ("Hello, World!").toList demoReqs (by decide)
    (by
      intro r hr
      fin_cases hr <;> exact ⟨rfl, rfl, rfl⟩)

lemma fullInv_append {store : List Post} (hinv : fullInv store) (p : Post)
    (hguard : store.any (fun q => decide (q.id = p.id) || decide (q.slug = p.slug)) = false)
    (hslug : p.slug ≠ []) : fullInv (store ++ [p]) := by
  obtain ⟨hids, hslugs, hne⟩ := hinv
  have hguard2 : ∀ q ∈ store, q.id ≠ p.id ∧ q.slug ≠ p.slug := by
    intro q hq
    have := List.any_eq_false.mp hguard q hq
    rw [Bool.or_eq_true, decide_eq_true_eq, decide_eq_true_eq] at this
    push_neg at this
    exact this
  refine ⟨?_, ?_, ?_⟩
  · rw [List.map_append, List.map_cons, List.map_nil]
    rw [List.nodup_append]
    refine ⟨hids, List.nodup_singleton _, ?_⟩
    intro x hx
    rw [List.mem_map] at hx
    obtain ⟨q, hq, hqx⟩ := hx
    simp only [List.mem_singleton]
    rw [← hqx]
    exact (hguard2 q hq).1
  · rw [List.map_append, List.map_cons, List.map_nil]
    rw [List.nodup_append]
    refine ⟨hslugs, List.nodup_singleton _, ?_⟩
    intro x hx
    rw [List.mem_map] at hx
    obtain ⟨q, hq, hqx⟩ := hx
    simp only [List.mem_singleton]
    rw [← hqx]
    exact (hguard2 q hq).2
  · intro q hq
    rw [List.mem_append, List.mem_singleton] at hq
    rcases hq with hq | hq
    · exact hne q hq
    · rw [hq]; exact hslug

lemma validateCreate_bad_title {b : PostInput} (h : b.title = none ∨ b.title = some []) :
    validateCreate b ≠ [] := by
  rw [validateCreate]
  rcases h with h | h <;> rw [h] <;> simp [requiredMsg]

lemma createBlog_spec (store : List Post) (newId : List Char) (b : PostInput) :
    (∃ s m, createBlog store newId b = (.err s m, store)) ∨
    (∃ t, b.title = some t ∧ t ≠ [] ∧
      createBlog store newId b =
        (.ok ⟨newId, t, probeSlug store none (slugify t), b.author.getD [],
          b.image.getD [], b.summary.getD [], b.content.getD []⟩,
         store ++ [⟨newId, t, probeSlug store none (slugify t), b.author.getD [],
           b.image.getD [], b.summary.getD [], b.content.getD []⟩]) ∧
      store.any (fun q => decide (q.id = newId) ||
        decide (q.slug = probeSlug store none (slugify t))) = false) := by
  rw [createBlog]
  cases hs : b.slug with
  | some s0 =>
    dsimp only
    by_cases hm : validateCreate b = []
    · rw [if_neg (not_not_intro hm)]
      cases ht : b.title with
      | none => exact Or.inl ⟨400, joinComma (validateCreate b), rfl⟩
      | some t =>
        have htne : t ≠ [] := validateCreate_title_ne_nil ht hm
        dsimp only
        cases hany : store.any (fun q => decide (q.id = newId) ||
            decide (q.slug = probeSlug store none (slugify t))) with
        | true =>
          refine Or.inl ⟨400, dupKeyMsg, ?_⟩
          simp [hany]
        | false =>
          refine Or.inr ⟨t, rfl, htne, ?_, hany⟩
          simp [hany]
    · rw [if_pos hm]
      exact Or.inl ⟨400, joinComma (validateCreate b), rfl⟩
  | none =>
    cases ht : b.title with
    | none =>
      dsimp only
      have hm := validateCreate_bad_title (Or.inl ht)
      rw [if_pos hm]
      exact Or.inl ⟨400, joinComma (validateCreate b), rfl⟩
    | some t =>
      dsimp only
      by_cases htne : t ≠ []
      · rw [if_pos htne]
        have hv2 : validateCreate ⟨some t, some (probeSlug store none (slugify t)), b.author,
            b.image, b.summary, b.content⟩ = validateCreate b := by
          rw [validateCreate, validateCreate, ht]
        rw [hv2]
        by_cases hm : validateCreate b = []
        · rw [if_neg (not_not_intro hm)]
          dsimp only
          cases hany : store.any (fun q => decide (q.id = newId) ||
              decide (q.slug = probeSlug store none (slugify t))) with
          | true =>
            refine Or.inl ⟨400, dupKeyMsg, ?_⟩
            simp [hany]
          | false =>
            refine Or.inr ⟨t, rfl, htne, ?_, hany⟩
            simp [hany]
        · rw [if_pos hm]
          exact Or.inl ⟨400, joinComma (validateCreate b), rfl⟩
      · rw [if_neg htne]
        push_neg at htne
        have hm := validateCreate_bad_title (Or.inr (by rw [ht, htne]))
        rw [if_pos hm]
        exact Or.inl ⟨400, joinComma (validateCreate b), rfl⟩

lemma create_preserves {store : List Post} (newId : List Char) (b : PostInput)
    (hinv : fullInv store) (hgood : goodOpB (Op.create newId b) = true) :
    fullInv (createBlog store newId b).2 := by
  rcases createBlog_spec store newId b with ⟨s, m, heq⟩ | ⟨t, ht, htne, heq, hany⟩
  · rw [heq]; exact hinv
  · rw [heq]
    apply fullInv_append hinv _ hany
    have hslug : slugify t ≠ [] := by
      rw [goodOpB, ht] at hgood
      rw [Bool.or_eq_true] at hgood
      rcases hgood with h | h
      · rw [List.isEmpty_iff] at h; exact absurd h htne
      · rw [Bool.not_eq_true', List.isEmpty_eq_false] at h; exact h
    exact probeSlug_ne_nil store none hslug

lemma eraseP_subset_mem {store : List Post} {p : Post} {f : Post → Bool}
    (h : p ∈ store.eraseP f) : p ∈ store :=
  (List.eraseP_sublist store).mem h

lemma delete_preserves {store : List Post} (id : List Char)
    (hinv : fullInv store) : fullInv (deleteBlog store id).2 := by
  obtain ⟨hids, hslugs, hne⟩ := hinv
  rw [deleteBlog]
  by_cases hv : validId id
  · rw [hv]
    simp only [Bool.not_true, Bool.false_eq_true, if_false]
    cases hf : store.find? (fun p => decide (p.id = id)) with
    | none => exact ⟨hids, hslugs, hne⟩
    | some p =>
      dsimp only
      refine ⟨?_, ?_, ?_⟩
      · exact hids.sublist ((List.eraseP_sublist store).map Post.id)
      · exact hslugs.sublist ((List.eraseP_sublist store).map Post.slug)
      · exact fun q hq => hne q (eraseP_subset_mem hq)
  · rw [Bool.not_eq_true] at hv
    rw [hv]
    simp only [Bool.not_false, if_true]
    exact ⟨hids, hslugs, hne⟩

lemma validateUpdate_bad_title {b : PostInput} (h : b.title = some []) :
    validateUpdate b ≠ [] := by
  rw [validateUpdate, h]
  simp [presentMsg]

lemma replaceFirst_mem : ∀ (store : List Post) (id : List Char) (p1 : Post),
    ∀ q ∈ replaceFirst store id p1, q ∈ store ∨ q = p1 := by
  intro store id p1
  induction store with
  | nil => intro q hq; exact absurd hq (List.not_mem_nil q)
  | cons r rest ih =>
    intro q hq
    rw [replaceFirst] at hq
    by_cases hr : r.id = id
    · rw [if_pos hr] at hq
      rcases List.mem_cons.mp hq with h1 | h1
      · exact Or.inr h1
      · exact Or.inl (List.mem_cons_of_mem r h1)
    · rw [if_neg hr] at hq
      rcases List.mem_cons.mp hq with h1 | h1
      · exact Or.inl (h1 ▸ List.mem_cons_self r rest)
      · rcases ih q h1 with h2 | h2
        · exact Or.inl (List.mem_cons_of_mem r h2)
        · exact Or.inr h2

lemma replaceFirst_inv : ∀ (store : List Post) (id : List Char) (p1 : Post),
    (store.map Post.id).Nodup → (store.map Post.slug).Nodup → (∀ q ∈ store, q.slug ≠ []) →
    p1.id = id →
    (∀ q ∈ store, q.id ≠ id → q.slug ≠ p1.slug) →
    p1.slug ≠ [] →
    (replaceFirst store id p1).map Post.id = store.map Post.id ∧
    ((replaceFirst store id p1).map Post.slug).Nodup ∧
    ∀ q ∈ replaceFirst store id p1, q.slug ≠ [] := by
  intro store id p1
  induction store with
  | nil => intro _ _ _ _ _ _; exact ⟨rfl, List.nodup_nil, fun q hq => absurd hq (List.not_mem_nil q)⟩
  | cons r rest ih =>
    intro hids hslugs hne hid1 hguard hp1
    rw [List.map_cons, List.nodup_cons] at hids hslugs
    rw [replaceFirst]
    by_cases hr : r.id = id
    · rw [if_pos hr]
      refine ⟨?_, ?_, ?_⟩
      · rw [List.map_cons, List.map_cons, hid1, hr]
      · rw [List.map_cons, List.nodup_cons]
        refine ⟨?_, hslugs.2⟩
        intro hmem
        rw [List.mem_map] at hmem
        obtain ⟨q, hq, hqs⟩ := hmem
        have hqid : q.id ≠ id := by
          intro hqid
          apply hids.1
          rw [hr, ← hqid]
          exact List.mem_map_of_mem Post.id hq
        exact hguard q (List.mem_cons_of_mem r hq) hqid hqs
      · intro q hq
        rcases List.mem_cons.mp hq with h1 | h1
        · rw [h1]; exact hp1
        · exact hne q (List.mem_cons_of_mem r h1)
    · rw [if_neg hr]
      have := ih hids.2 hslugs.2 (fun q hq => hne q (List.mem_cons_of_mem r hq)) hid1
        (fun q hq hqid => hguard q (List.mem_cons_of_mem r hq) hqid) hp1
      refine ⟨?_, ?_, ?_⟩
      · rw [List.map_cons, List.map_cons, this.1]
      · rw [List.map_cons, List.nodup_cons]
        refine ⟨?_, this.2.1⟩
        intro hmem
        rw [List.mem_map] at hmem
        obtain ⟨q, hq, hqs⟩ := hmem
        rcases replaceFirst_mem rest id p1 q hq with h2 | h2
        · exact hslugs.1 (hqs ▸ List.mem_map_of_mem Post.slug h2)
        · exact hguard r (List.mem_cons_self r rest) hr (by rw [← hqs, h2])
      · intro q hq
        rcases List.mem_cons.mp hq with h1 | h1
        · rw [h1]; exact hne r (List.mem_cons_self r rest)
        · exact this.2.2 q h1

lemma validateUpdate_slug_irrel (b : PostInput) (s : Option (List Char)) :
    validateUpdate { b with slug := s } = validateUpdate b := rfl

lemma updateBlog_spec (store : List Post) (id : List Char) (b : PostInput) :
    (∃ s m, updateBlog store id b = (.err s m, store)) ∨
    (∃ p b1, store.find? (fun q => decide (q.id = id)) = some p ∧
      validateUpdate b1 = [] ∧
      ((∃ t, b.title = some t ∧ t ≠ [] ∧
          b1 = ⟨some t, some (probeSlug store (some id) (slugify t)), b.author, b.image,
            b.summary, b.content⟩) ∨
        (b.title = none ∧ b1 = b)) ∧
      store.any (fun q => decide (¬ q.id = id) &&
        decide (q.slug = (applyUpd p b1).slug)) = false ∧
      updateBlog store id b =
        (.ok (applyUpd p b1), replaceFirst store id (applyUpd p b1))) := by
  rw [updateBlog]
  by_cases hv : validId id
  · rw [hv]
    simp only [Bool.not_true, Bool.false_eq_true, if_false]
    cases ht : b.title with
    | none =>
      dsimp only
      by_cases hm : validateUpdate b = []
      · rw [if_neg (not_not_intro hm)]
        cases hf : store.find? (fun q => decide (q.id = id)) with
        | none => exact Or.inl ⟨404, notFoundMsg, rfl⟩
        | some p =>
          dsimp only
          cases hany : store.any (fun q => decide (¬ q.id = id) &&
              decide (q.slug = (applyUpd p b).slug)) with
          | true =>
            refine Or.inl ⟨400, dupKeyMsg, ?_⟩
            simp [hany]
          | false =>
            refine Or.inr ⟨p, b, rfl, hm, Or.inr ⟨rfl, rfl⟩, hany, ?_⟩
            simp [hany]
      · rw [if_pos hm]
        exact Or.inl ⟨400, joinComma (validateUpdate b), rfl⟩
    | some t =>
      dsimp only
      by_cases htne : t ≠ []
      · rw [if_pos htne]
        have hv2 : validateUpdate ⟨some t, some (probeSlug store (some id) (slugify t)), b.author,
            b.image, b.summary, b.content⟩ = validateUpdate b := by
          rw [validateUpdate, validateUpdate, ht]
        rw [hv2]
        by_cases hm : validateUpdate b = []
        · rw [if_neg (not_not_intro hm)]
          cases hf : store.find? (fun q => decide (q.id = id)) with
          | none => exact Or.inl ⟨404, notFoundMsg, rfl⟩
          | some p =>
            dsimp only
            cases hany : store.any (fun q => decide (¬ q.id = id) &&
                decide (q.slug = (applyUpd p ⟨some t, some (probeSlug store (some id) (slugify t)),
                  b.author, b.image, b.summary, b.content⟩).slug)) with
            | true =>
              refine Or.inl ⟨400, dupKeyMsg, ?_⟩
              simp [hany]
            | false =>
              refine Or.inr ⟨p, ⟨some t, some (probeSlug store (some id) (slugify t)), b.author,
                b.image, b.summary, b.content⟩, rfl, by rw [hv2]; exact hm,
                Or.inl ⟨t, rfl, htne, rfl⟩, hany, ?_⟩
              simp [hany]
        · rw [if_pos hm]
          exact Or.inl ⟨400, joinComma (validateUpdate b), rfl⟩
      · rw [if_neg htne]
        push_neg at htne
        have hm : validateUpdate b ≠ [] := validateUpdate_bad_title (by rw [ht, htne])
        rw [if_pos hm]
        exact Or.inl ⟨400, joinComma (validateUpdate b), rfl⟩
  · rw [Bool.not_eq_true] at hv
    rw [hv]
    simp only [Bool.not_false, if_true]
    exact Or.inl ⟨400, updateFailMsg, rfl⟩

lemma update_preserves {store : List Post} (id : List Char) (b : PostInput)
    (hinv : fullInv store) (hgood : goodOpB (Op.update id b) = true) :
    fullInv (updateBlog store id b).2 := by
  rcases updateBlog_spec store id b with ⟨s, m, heq⟩ | ⟨p, b1, hf, hm, hb1, hany, heq⟩
  · rw [heq]; exact hinv
  · rw [heq]
    obtain ⟨hids, hslugs, hne⟩ := hinv
    have hpid : p.id = id := by
      have := List.find?_some hf
      rwa [decide_eq_true_eq] at this
    have hpmem : p ∈ store := List.mem_of_find?_eq_some hf
    have happ_id : (applyUpd p b1).id = p.id := rfl
    have hguard : ∀ q ∈ store, q.id ≠ id → q.slug ≠ (applyUpd p b1).slug := by
      intro q hq hqid hqs
      have := List.any_eq_false.mp hany q hq
      rw [Bool.and_eq_true, decide_eq_true_eq, decide_eq_true_eq] at this
      exact this ⟨hqid, hqs⟩
    have hp1slug : (applyUpd p b1).slug ≠ [] := by
      rcases hb1 with ⟨t, ht, htne, hb1⟩ | ⟨ht, hb1⟩
      · rw [hb1, applyUpd]
        simp only [Option.getD_some]
        apply probeSlug_ne_nil
        rw [goodOpB, Bool.and_eq_true] at hgood
        have h1 := hgood.1
        rw [ht] at h1
        rw [Bool.or_eq_true] at h1
        rcases h1 with h | h
        · rw [List.isEmpty_iff] at h; exact absurd h htne
        · rwa [Bool.not_eq_true', List.isEmpty_eq_false] at h
      · rw [hb1, applyUpd]
        cases hbs : b.slug with
        | none =>
          simp only [Option.getD_none]
          exact hne p hpmem
        | some s0 =>
          simp only [Option.getD_some]
          rw [goodOpB, Bool.and_eq_true] at hgood
          have h2 := hgood.2
          rw [ht, hbs] at h2
          rwa [Bool.not_eq_true', List.isEmpty_eq_false] at h2
    have := replaceFirst_inv store id (applyUpd p b1) hids hslugs hne
      (happ_id.trans hpid) hguard hp1slug
    exact ⟨this.1 ▸ hids, this.2.1, this.2.2⟩

lemma runOps_inv : ∀ (ops : List Op) (store : List Post), fullInv store →
    ops.all goodOpB = true → fullInv (ops.foldl applyOp store) := by
  intro ops
  induction ops with
  | nil => intro store hinv _; exact hinv
  | cons op rest ih =>
    intro store hinv hall
    rw [List.all_cons, Bool.and_eq_true] at hall
    rw [List.foldl_cons]
    apply ih _ _ hall.2
    cases op with
    | create newId b => exact create_preserves newId b hinv hall.1
    | update id b => exact update_preserves id b hinv hall.1
    | delete id => exact delete_preserves id hinv

/-- C3 amended: after every serialized sequence of create, update and delete operations in which every supplied title slugifies to a non-empty string and every update supplying a slug without a title supplies a non-empty slug, the persisted slugs are pairwise distinct and non-empty. -/
theorem ops_slug_invariant (ops : List Op) (h : ops.all goodOpB = true) :
    slugInvariant (runOps ops) = true := by
  have hinv := runOps_inv ops [] ⟨List.nodup_nil, List.nodup_nil,
    fun q hq => absurd hq (List.not_mem_nil q)⟩ h
  rw [slugInvariant, Bool.and_eq_true]
  constructor
  · rw [decide_eq_true_eq]
    exact hinv.2.1
  · rw [List.all_eq_true]
    intro p hp
    rw [Bool.not_eq_true', List.isEmpty_eq_false]
    exact hinv.2.2 p hp

/-- C3 counterexample: one create whose title is three exclamation marks reaches a store holding a post with an empty slug, refuting the non-emptiness half of the claimed invariant. -/
theorem reachable_empty_slug : slugInvariant (runOps c3ops) = false := by decide

/-- C3 amended: after every serialized sequence of create, update and delete operations in which every supplied title slugifies to a non-empty string and every update supplying a slug without a title supplies a non-empty slug, the persisted slugs are pairwise distinct and non-empty. -/
theorem ops_slug_invariant_witness : slugInvariant (runOps c3goodOps) = true :=
  ops_slug_invariant c3goodOps (by decide)

/-- C4 counterexample: a create supplying slug custom and title Hello stores slug hello, because the pre-save hook regenerates the slug whenever the title path is modified, which on a new document it always is; the claim that a supplied slug is stored verbatim fails. -/
theorem create_ignores_supplied_slug :
    (createBlog [] demoId1 c4input).1 =
      ApiResult.ok ⟨demoId1, ("Hello").toList, ("hello").toList, ("Ann").toList,
        ("img").toList, ("sum").toList, ("body").toList⟩ ∧
    c4input.slug = some (("custom").toList) ∧
    ("hello").toList ≠ ("custom").toList := by decide

/-- C4 amended: every successful create stores as slug the probe result derived from the supplied title, regardless of any slug supplied in the body; the route-level guard alone skips generation, but the pre-save hook overwrites the slug anyway. -/
theorem create_slug_from_title (store : List Post) (newId : List Char) (b : PostInput)
    (t : List Char) (p : Post) (ht : b.title = some t)
    (hok : (createBlog store newId b).1 = .ok p) :
    p.slug = probeSlug store none (slugify t) := by
  rcases createBlog_spec store newId b with ⟨s, m, heq⟩ | ⟨t2, ht2, htne, heq, hany⟩
  · rw [heq] at hok
    exact absurd hok (by simp)
  · rw [heq] at hok
    simp only [ApiResult.ok.injEq] at hok
    rw [← hok]
    have : t = t2 := by
      rw [ht] at ht2
      exact Option.some_injective _ ht2
    rw [this]

/-- C4 amended: every successful create stores as slug the probe result derived from the supplied title, regardless of any slug supplied in the body; the route-level guard alone skips generation, but the pre-save hook overwrites the slug anyway. -/
theorem create_slug_from_title_witness :
    (⟨demoId1, ("Hello").toList, ("hello").toList, ("Ann").toList, ("img").toList,
      ("sum").toList, ("body").toList⟩ : Post).slug =
      probeSlug [] none (slugify ("Hello").toList) :=
  create_slug_from_title [] demoId1 c4input ("Hello").toList _ rfl (by decide)

/-- C5 counterexample: an update whose body has no title but supplies a slug changes the stored slug, so an update that does not contain a title can still change the slug. -/
theorem update_slug_without_title :
    (updateBlog c5store demoId1 c5input).2.map Post.slug ≠ c5store.map Post.slug := by decide

lemma replaceFirst_map_eq {γ : Type} (f : Post → γ) :
    ∀ (store : List Post) (id : List Char) (p1 p : Post),
    store.find? (fun q => decide (q.id = id)) = some p → f p1 = f p →
    (replaceFirst store id p1).map f = store.map f := by
  intro store id p1 p
  induction store with
  | nil => intro hf _; exact absurd hf (by simp)
  | cons r rest ih =>
    intro hf hfp
    rw [replaceFirst]
    by_cases hr : r.id = id
    · rw [if_pos hr]
      rw [List.find?_cons_of_pos _ (by rw [decide_eq_true_eq]; exact hr)] at hf
      have : r = p := by injection hf
      rw [List.map_cons, List.map_cons, hfp, this]
    · rw [if_neg hr]
      rw [List.find?_cons_of_neg _ (by rw [decide_eq_true_eq]; exact hr)] at hf
      rw [List.map_cons, List.map_cons, ih hf hfp]

/-- C5 amended: an update whose body contains neither a title nor a slug leaves the id and slug of every stored post unchanged, whether it succeeds or fails. -/
theorem update_no_title_no_slug_frame (store : List Post) (id : List Char) (b : PostInput)
    (ht : b.title = none) (hs : b.slug = none) :
    (updateBlog store id b).2.map (fun p => (p.id, p.slug)) =
      store.map (fun p => (p.id, p.slug)) := by
  rcases updateBlog_spec store id b with ⟨s, m, heq⟩ | ⟨p, b1, hf, hm, hb1, hany, heq⟩
  · rw [heq]
  · rw [heq]
    rcases hb1 with ⟨t, ht2, _, _⟩ | ⟨_, hb1⟩
    · rw [ht] at ht2; exact absurd ht2 (by simp)
    · apply replaceFirst_map_eq _ store id _ p hf
      rw [hb1, applyUpd, hs]
      rfl

/-- C5 witness: a content-only update leaves ids and slugs unchanged. -/
theorem update_frame_witness :
    (updateBlog c5store demoId1 ⟨none, none, none, none, none,
      some ("new body").toList⟩).2.map (fun p => (p.id, p.slug)) =
      c5store.map (fun p => (p.id, p.slug)) :=
  update_no_title_no_slug_frame c5store demoId1 _ rfl rfl

/-- C6 counterexample: with search text a single dot, the listing filter keeps the post titled abc although abc does not contain a dot; the search text is interpreted as a regular expression, not a literal substring, so the claim fails for punctuation. -/
theorem search_dot_not_substring :
    listBlogsFilter (('.') :: []) c6store ≠
      c6store.filter (specSearchMatches (('.') :: [])) := by decide

/-- C6 amended: for every search text built only of ASCII alphanumeric characters and spaces, the listing filter selects exactly the posts whose title or author contains the text as a case-insensitive substring. -/
theorem search_literal_substring (s : List Char) (store : List Post)
    (h : s.all (fun c => isAsciiAlnum c || decide (c = ' ')) = true) :
    listBlogsFilter s store = store.filter (specSearchMatches s) := by
  rw [listBlogsFilter]
  apply List.filter_congr
  intro p _
  rw [queryMatches, specSearchMatches,
    regexFind_eq_ciSubstr s h, regexFind_eq_ciSubstr s h]

/-- C6 amended: for every search text built only of ASCII alphanumeric characters and spaces, the listing filter selects exactly the posts whose title or author contains the text as a case-insensitive substring. -/
theorem search_literal_substring_witness :
    listBlogsFilter (("ab").toList) c6store =
      c6store.filter (specSearchMatches (("ab").toList)) :=
  search_literal_substring (("ab").toList) c6store (by decide)

/-- C8 counterexample: a malformed identifier on lookup and on delete yields a 500 server-error response, refuting the claim that only not-found or client errors are signalled. -/
theorem malformed_id_server_error :
    isServerErr (getBlogById [] (('x') :: [])) = true ∧
    isServerErr (deleteBlog [] (('x') :: [])).1 = true := by decide

/-- C8 amended: a malformed identifier never escapes a handler: the cast error is caught, lookup and delete respond 500, update responds 400, and the store is unchanged. -/
theorem malformed_id_caught (store : List Post) (id : List Char) (b : PostInput)
    (h : validId id = false) :
    getBlogById store id = .err 500 serverErrorMsg ∧
    deleteBlog store id = (.err 500 deleteErrorMsg, store) ∧
    updateBlog store id b = (.err 400 updateFailMsg, store) := by
  refine ⟨?_, ?_, ?_⟩
  · rw [getBlogById, h]
    rfl
  · rw [deleteBlog, h]
    rfl
  · rw [updateBlog, h]
    rfl

/-- C8 amended: a malformed identifier never escapes a handler: the cast error is caught, lookup and delete respond 500, update responds 400, and the store is unchanged. -/
theorem malformed_id_caught_witness :
    getBlogById [] (('x') :: []) = .err 500 serverErrorMsg ∧
    deleteBlog [] (('x') :: []) = (.err 500 deleteErrorMsg, []) ∧
    updateBlog [] (('x') :: []) c5input = (.err 400 updateFailMsg, []) :=
  malformed_id_caught [] (('x') :: []) c5input (by decide)

/-- C9: a create whose body fails required-field validation returns a 400 error whose message joins the per-field messages with comma and space, the store is unchanged, and a missing or empty title contributes the title message. -/
theorem create_validation_error (store : List Post) (newId : List Char) (b : PostInput)
    (h : validateCreate b ≠ []) :
    createBlog store newId b = (.err 400 (joinComma (validateCreate b)), store) ∧
    ((b.title = none ∨ b.title = some []) → titleRequiredMsg ∈ validateCreate b) := by
  constructor
  · rw [createBlog]
    cases hs : b.slug with
    | some s0 =>
      dsimp only
      rw [if_pos h]
    | none =>
      cases ht : b.title with
      | none =>
        dsimp only
        rw [if_pos h]
      | some t =>
        dsimp only
        by_cases htne : t ≠ []
        · rw [if_pos htne]
          have hv2 : validateCreate ⟨some t, some (probeSlug store none (slugify t)), b.author,
              b.image, b.summary, b.content⟩ = validateCreate b := by
            rw [validateCreate, validateCreate, ht]
          rw [hv2, if_pos h]
        · rw [if_neg htne]
          rw [if_pos h]
  · intro hbad
    rw [validateCreate]
    rcases hbad with hbad | hbad <;>
      rw [hbad] <;>
      · rw [requiredMsg]
        exact List.mem_append_left _ (List.mem_cons_self _ _)

/-- C9: a create whose body fails required-field validation returns a 400 error whose message joins the per-field messages with comma and space, the store is unchanged, and a missing or empty title contributes the title message. -/
theorem create_validation_error_witness :
    createBlog [] demoId1 ⟨none, none, none, some ("img").toList, some ("sum").toList,
        some ("body").toList⟩ =
      (.err 400 (("Title is required, Author is required").toList), []) := by
  rw [(create_validation_error [] demoId1 ⟨none, none, none, some ("img").toList,
    some ("sum").toList, some ("body").toList⟩ (by decide)).1]
  decide
